import Mathlib

/-!
Verification of the 13F extraction core of `save_13f_range.py` (with the
auxiliary `parse_13f_table.py`), shallowly embedded in Lean 4.

Python strings are modelled as `List Char`; Python `str.strip` / `str.upper`
/ `str.lower` / `str.find` / slicing are embedded below for the ASCII texts
the parser handles.  A value of type `Option A` stands for a Python value
that may be `None` (or a lookup that may fail), and `Except String A`
stands for a computation that may raise an exception carrying a message.
-/

namespace PF13

/-- ASCII whitespace stripped by Python `str.strip()` (the 13F texts handled
here are latin-1 decoded, and the parser's tokens are ASCII). -/
def pyIsSpace (c : Char) : Bool :=
  c = ' ' || c = '\t' || c = '\n' || c = '\r' || c = '\x0b' || c = '\x0c'

/-- Python `s.strip()`: remove leading and trailing whitespace. -/
def pyStrip (l : List Char) : List Char :=
  ((l.dropWhile pyIsSpace).reverse.dropWhile pyIsSpace).reverse

/-- Python `s.rstrip()`: remove trailing whitespace. -/
def pyRStrip (l : List Char) : List Char :=
  (l.reverse.dropWhile pyIsSpace).reverse

/-- Python `s.rstrip("\r\n")`. -/
def rstripCRLF (l : List Char) : List Char :=
  (l.reverse.dropWhile (fun c => c = '\r' || c = '\n')).reverse

/-- Python `s.upper()` (ASCII; the parser's keyword tokens are ASCII). -/
def upperL (l : List Char) : List Char := l.map Char.toUpper

/-- Python `s.lower()` (ASCII). -/
def lowerL (l : List Char) : List Char := l.map Char.toLower

/-- Python `hay.find(needle)`: index of the first occurrence of `needle` in
`hay`, `none` when absent (Python returns `-1` there). -/
def findSub : List Char → List Char → Option Nat
  | [], [] => some 0
  | [], _ :: _ => none
  | c :: t, needle =>
    if needle.isPrefixOf (c :: t) then some 0
    else (findSub t needle).map (fun n => n + 1)

/-- First index of a list element satisfying `p` (Python loop with `break`). -/
def firstIdx (p : α → Bool) : List α → Option Nat
  | [] => none
  | a :: t => if p a then some 0 else (firstIdx p t).map (fun n => n + 1)

/-- `occursAt hay needle i` : `needle` occurs in `hay` starting at index `i`. -/
def occursAt (hay needle : List Char) (i : Nat) : Prop :=
  needle <+: hay.drop i

/-- `firstOccur hay needle i` : index `i` is the first occurrence of `needle`
in `hay`. -/
def firstOccur (hay needle : List Char) (i : Nat) : Prop :=
  occursAt hay needle i ∧ ∀ k < i, ¬ occursAt hay needle k

instance (hay needle : List Char) (i : Nat) : Decidable (occursAt hay needle i) :=
  decidable_of_iff (needle.isPrefixOf (hay.drop i) = true)
    (by simp only [occursAt]; exact List.isPrefixOf_iff_prefix)

instance (hay needle : List Char) (i : Nat) : Decidable (firstOccur hay needle i) :=
  decidable_of_iff (occursAt hay needle i ∧ ∀ k < i, ¬ occursAt hay needle k)
    Iff.rfl

instance {ε α : Type} [DecidableEq ε] [DecidableEq α] : DecidableEq (Except ε α) :=
  fun a b =>
    match a, b with
    | .ok x, .ok y => decidable_of_iff (x = y) (by simp)
    | .error x, .error y => decidable_of_iff (x = y) (by simp)
    | .ok _, .error _ => isFalse (fun h => Except.noConfusion h)
    | .error _, .ok _ => isFalse (fun h => Except.noConfusion h)

/-! ## Quarter tokens (`quarter_to_period_end`, save_13f_range.py lines 40-46) -/

/-- The quarter-end suffix table `{"1": "03-31", "2": "06-30", "3": "09-30",
"4": "12-31"}`; `none` models a `KeyError`-free miss, which the source rules
out beforehand with `yq[5] in "1234"` (the same condition). -/
def quarterEnd : Char → Option (List Char)
  | '1' => some "03-31".data
  | '2' => some "06-30".data
  | '3' => some "09-30".data
  | '4' => some "12-31".data
  | _ => none

/-- Message of the `ValueError` raised for a bad token (the token is named
after `strip().upper()` normalization, as in the source f-string). -/
def invalidQuarterMsg (yq : List Char) : List Char :=
  "Invalid quarter token: ".data ++ yq ++ ". Use YYYYQn (e.g., 2013Q1)".data

/-- Body of `quarter_to_period_end` after `yq = yq.strip().upper()`:
check `len(yq) == 6 and yq[4] == "Q" and yq[5] in "1234"`, then return
`f"{yq[:4]}-{end}"`. -/
def quarterCore : List Char → Except (List Char) (List Char)
  | [y1, y2, y3, y4, q, d] =>
    if q = 'Q' then
      match quarterEnd d with
      | some sfx => Except.ok ([y1, y2, y3, y4] ++ '-' :: sfx)
      | none => Except.error (invalidQuarterMsg [y1, y2, y3, y4, q, d])
    else Except.error (invalidQuarterMsg [y1, y2, y3, y4, q, d])
  | yq => Except.error (invalidQuarterMsg yq)

/-- `quarter_to_period_end` (lines 40-46).  The `Except.error` value is the
raised `ValueError`'s message. -/
def quarter_to_period_end (yq0 : List Char) : Except (List Char) (List Char) :=
  quarterCore (upperL (pyStrip yq0))

/-! ## Amendment resolution (`pick_latest_for_period`, lines 68-89) -/

/-- A filing as consumed by `pick_latest_for_period`: the attributes read via
`getattr(f, ..., "")`; the `or ""` None-fallback is the identity on strings,
so the fields are plain strings here. -/
structure Filing where
  filing_date : String
  accession_number : String
  form : String
deriving DecidableEq

/-- Python string `<`: lexicographic comparison of code points
(`Char.toNat` is the code point). -/
def lexLt : List Char → List Char → Bool
  | [], [] => false
  | [], _ :: _ => true
  | _ :: _, [] => false
  | a :: s, b :: t => if a = b then lexLt s t else decide (a.toNat < b.toNat)

/-- The sort key of `pick_latest_for_period`: tuple order on
`(filing_date, accession_number)`, as `<=` (Boolean). -/
def filingKeyLeB (a b : Filing) : Bool :=
  lexLt a.filing_date.data b.filing_date.data ||
    (a.filing_date == b.filing_date &&
      (lexLt a.accession_number.data b.accession_number.data ||
        a.accession_number == b.accession_number))

/-- Propositional form of the sort key order. -/
def filingKeyLe (a b : Filing) : Prop := filingKeyLeB a b = true

instance : DecidableRel filingKeyLe :=
  fun a b => Bool.decEq (filingKeyLeB a b) true

/-- Python `sorted(filings_for_period, key=...)`: the stable ascending sort
by the key.  A stable sort by a total preorder has a unique result, and
`List.insertionSort` (which inserts each earlier element before the
later-sorted key-equal elements) is exactly that result. -/
def sortFilings (fs : List Filing) : List Filing :=
  fs.insertionSort filingKeyLe

/-- `(getattr(f, "form", "") or "").upper() in ("13F-HR/A", "13F-HR/A ")`. -/
def isHRA (form : String) : Bool :=
  upperL form.data = "13F-HR/A".data || upperL form.data = "13F-HR/A ".data

/-- `(getattr(f, "form", "") or "").upper().strip() == "13F-HR"`. -/
def isHR (form : String) : Bool :=
  pyStrip (upperL form.data) = "13F-HR".data

/-- `pick_latest_for_period` (lines 68-89): sort ascending by
`(filing_date, accession_number)`, prefer the last amendment (13F-HR/A),
else the last base 13F-HR, else the last filing.  On an empty input the
Python code would raise `IndexError` on `filings_for_period[-1]`; that case
is `none` here. -/
def pick_latest_for_period (fs : List Filing) : Option Filing :=
  let ss := sortFilings fs
  match (ss.filter (fun f => isHRA f.form)).getLast? with
  | some f => some f
  | none =>
    match (ss.filter (fun f => isHR f.form)).getLast? with
    | some f => some f
    | none => ss.getLast?

/-! ## Text block extraction (`_extract_info_table_block`, lines 108-116) -/

/-- The lower-case start marker of the information-table block. -/
def startKey : List Char := "form 13f information table".data

/-- The lower-case end marker of the information-table block. -/
def endKey : List Char := "grand total".data

/-- `_extract_info_table_block` (lines 108-116): the case-insensitive block
from the first occurrence of the start marker through the end of the next
`grand total`; the whole text when the start marker is absent; the tail of
the text when only the end marker is absent. -/
def _extract_info_table_block (txt : List Char) : List Char :=
  let tl := lowerL txt
  match findSub tl startKey with
  | none => txt
  | some i =>
    match findSub (tl.drop i) endKey with
    | none => txt.drop i
    | some j => (txt.drop i).take (j + endKey.length)

/-! ## Header location (`_find_header_positions`, lines 119-161) -/

/-- The header test of the search loop: the stripped, uppercased line
contains NAME OF ISSUER, CUSIP and VALUE. -/
def isHeaderLine (ln : List Char) : Bool :=
  ((findSub (upperL (pyStrip ln)) "NAME OF ISSUER".data).isSome &&
      (findSub (upperL (pyStrip ln)) "CUSIP".data).isSome) &&
    (findSub (upperL (pyStrip ln)) "VALUE".data).isSome

/-- `pos(hay, needle)` (lines 133-135): `hay.upper().find(needle)`, with
`None` for Python's `-1`. -/
def posKw (hay needle : List Char) : Option Nat :=
  findSub (upperL hay) needle

/-- Python `a or b` on int-or-None values: `a` unless it is `None` **or
`0`** -- `0` is falsy in Python, so an offset of 0 falls through to the
fallback. -/
def pyOrN (a b : Option Nat) : Option Nat :=
  match a with
  | some n => if n = 0 then b else some n
  | none => b

/-- The `positions` dict of `_find_header_positions`.  A `none` field is
both an absent key and a `None` value (indistinguishable through
`positions.get`/`pos.get(k) is not None`, the only reads). -/
structure Positions where
  name : Option Nat
  title : Option Nat
  cusip : Option Nat
  value : Option Nat
  shares : Option Nat
  sh_prn : Option Nat
  putcall : Option Nat
  discr : Option Nat
  mgrs : Option Nat
  v_sole : Option Nat
  v_shared : Option Nat
  v_none : Option Nat
deriving DecidableEq

/-- `va_block = pos(hdr, "VOTING AUTHORITY") or pos(nxt, "VOTING AUTHORITY")`
(line 149). -/
def vaBlock (hdr nxt : List Char) : Option Nat :=
  pyOrN (posKw hdr "VOTING AUTHORITY".data) (posKw nxt "VOTING AUTHORITY".data)

/-- The positions built from the header line `hdr` and the following line
`nxt` (lines 137-159).  The voting sub-columns are searched in `nxt` and
are set only when the voting-authority block was found. -/
def positionsOf (hdr nxt : List Char) : Positions :=
  let vsole := match vaBlock hdr nxt with
    | none => none
    | some vb => pyOrN (posKw nxt "SOLE".data) (some vb)
  let vshared := match vaBlock hdr nxt with
    | none => none
    | some _ => pyOrN (posKw nxt "SHARED".data) (vsole.map (fun n => n + 10))
  let vnone := match vaBlock hdr nxt with
    | none => none
    | some _ => pyOrN (posKw nxt "NONE".data) (vshared.map (fun n => n + 10))
  { name := posKw hdr "NAME OF ISSUER".data
    title := posKw hdr "TITLE OF".data
    cusip := posKw hdr "CUSIP".data
    value := posKw hdr "VALUE".data
    shares := pyOrN (posKw hdr "SHRS OR PRN AMT".data) (posKw hdr "SHRS OR".data)
    sh_prn := posKw hdr "SH/".data
    putcall := posKw hdr "PUT/CALL".data
    discr := posKw hdr "INVESTMENT DISCRETION".data
    mgrs := posKw hdr "OTHER MANAGERS".data
    v_sole := vsole
    v_shared := vshared
    v_none := vnone }

/-- Result of `_find_header_positions`. -/
structure HeaderInfo where
  header_idx : Nat
  pos : Positions
deriving DecidableEq

/-- `_find_header_positions` (lines 119-161): first line passing the header
test (raising `RuntimeError` when none exists), positions built from it and
the next line (`""` when the header is the last line). -/
def _find_header_positions (lines : List (List Char)) :
    Except (List Char) HeaderInfo :=
  match firstIdx isHeaderLine lines with
  | none => Except.error "Could not locate header line.".data
  | some idx =>
    Except.ok ⟨idx, positionsOf (lines.getD idx []) (lines.getD (idx + 1) [])⟩

/-! ## Fixed-width parsing (`_parse_fixed_width_table`, lines 164-309) -/

/-- The separator characters of the line pre-filter (line 220). -/
def sepChars : List Char := ['-', '=', '<', '>', '_']

/-- `set(ln.strip()) <= {"-", "=", "<", ">", "_"}`: every stripped character
is a separator; a blank or whitespace-only line also passes (empty subset). -/
def isSepOnly (ln : List Char) : Bool :=
  (pyStrip ln).all (fun c => sepChars.contains c)

/-- The line pre-filter (lines 216-221): drop separator-only lines, then
right-strip CR/LF on the kept lines. -/
def filterSepLines (raw : List (List Char)) : List (List Char) :=
  (raw.filter (fun ln => ¬ isSepOnly ln)).map rstripCRLF

/-- Python `str.splitlines()` worker; `cur` holds the current line in
reverse. -/
def splitlinesGo (cur : List Char) : List Char → List (List Char)
  | [] => if cur = [] then [] else [cur.reverse]
  | '\r' :: '\n' :: t => cur.reverse :: splitlinesGo [] t
  | '\r' :: t => cur.reverse :: splitlinesGo [] t
  | '\n' :: t => cur.reverse :: splitlinesGo [] t
  | c :: t => splitlinesGo (c :: cur) t

/-- Python `str.splitlines()` for the `\n` / `\r\n` / `\r` line breaks
occurring in latin-1 SEC texts (no trailing empty line). -/
def pySplitlines (s : List Char) : List (List Char) := splitlinesGo [] s

/-- `_slice` (lines 164-167): `line[start:end].rstrip()`, empty when `start`
is `None`. -/
def _slice (line : List Char) (start : Option Nat) (stop : Option Nat) :
    List Char :=
  match start with
  | none => []
  | some s =>
    pyRStrip (match stop with
      | some e => (line.drop s).take (e - s)
      | none => line.drop s)

/-- Lookup in the positions dict by the key strings of the `keys` list. -/
def posGet (p : Positions) : String → Option Nat
  | "name" => p.name
  | "title" => p.title
  | "cusip" => p.cusip
  | "value" => p.value
  | "shares" => p.shares
  | "sh_prn" => p.sh_prn
  | "putcall" => p.putcall
  | "discr" => p.discr
  | "mgrs" => p.mgrs
  | "v_sole" => p.v_sole
  | "v_shared" => p.v_shared
  | "v_none" => p.v_none
  | _ => none

/-- The `keys` list (lines 226-239). -/
def fwKeys : List String :=
  ["name", "title", "cusip", "value", "shares", "sh_prn", "putcall", "discr",
    "mgrs", "v_sole", "v_shared", "v_none"]

/-- `ordered = sorted([(k, pos[k]) for k in keys if pos.get(k) is not None],
key=lambda x: x[1])` (lines 240-242); Python's sort is stable, hence
insertion sort. -/
def orderedFields (p : Positions) : List (String × Nat) :=
  (fwKeys.filterMap (fun k => (posGet p k).map (fun v => (k, v)))).insertionSort
    (fun a b => a.2 ≤ b.2)

/-- Span computation (lines 243-246): each field runs to the next field's
start offset; the last field runs to the end of the line. -/
def mkSpans : List (String × Nat) → List (String × Nat × Option Nat)
  | [] => []
  | [(k, s)] => [(k, s, none)]
  | (k, s) :: (k2, s2) :: rest => (k, s, some s2) :: mkSpans ((k2, s2) :: rest)

/-- One parsed row, the dict `{k: _slice(ln, start, end).strip()}`
(line 256). -/
def mkRow (spans : List (String × Nat × Option Nat)) (ln : List Char) :
    List (String × List Char) :=
  spans.map (fun e => (e.1, pyStrip (_slice ln (some e.2.1) e.2.2)))

/-- `row.get(k)` under Python falsiness: a missing key (`None`) and an empty
string are equally falsy in the discard test, so a missing key reads as
`[]`. -/
def rowGet (row : List (String × List Char)) (k : String) : List Char :=
  match row.find? (fun e => e.1 == k) with
  | some e => e.2
  | none => []

/-- `"GRAND TOTAL" in ln.upper()` (lines 253-255). -/
def hasGrandTotal (ln : List Char) : Bool :=
  (findSub (upperL ln) "GRAND TOTAL".data).isSome

/-- The data-line loop (lines 249-259): skip blank lines, stop at the first
GRAND TOTAL line, slice each span, drop rows whose cusip and value slices
are both empty. -/
def extractRows (spans : List (String × Nat × Option Nat)) :
    List (List Char) → List (List (String × List Char))
  | [] => []
  | ln :: rest =>
    if pyStrip ln = [] then extractRows spans rest
    else if hasGrandTotal ln then []
    else
      if rowGet (mkRow spans ln) "cusip" = [] ∧ rowGet (mkRow spans ln) "value" = []
      then extractRows spans rest
      else mkRow spans ln :: extractRows spans rest

/-- A cell of the final table: a raw string, a coerced integer, or the
missing marker `pd.NA`. -/
inductive Cell where
  | s (v : List Char)
  | i (v : Int)
  | na
deriving DecidableEq

/-- Digit-sequence parsing of Python `int()`: nonempty ASCII digits with
single underscores allowed between digits. -/
def pyDigitsGo (acc : Nat) : List Char → Option Nat
  | [] => some acc
  | '_' :: c :: t =>
    if c.isDigit then pyDigitsGo (acc * 10 + (c.toNat - 48)) t else none
  | c :: t =>
    if c.isDigit then pyDigitsGo (acc * 10 + (c.toNat - 48)) t else none

/-- Digit-sequence parsing of Python `int()` (entry). -/
def pyDigits : List Char → Option Nat
  | [] => none
  | c :: t => if c.isDigit then pyDigitsGo (c.toNat - 48) t else none

/-- Python `int(s)` on an already-stripped string: optional sign, then
digits (Unicode digits are out of scope for these latin-1 texts). -/
def pyInt : List Char → Option Int
  | [] => none
  | c :: t =>
    if c = '+' then (pyDigits t).map Int.ofNat
    else if c = '-' then (pyDigits t).map (fun n => -(Int.ofNat n))
    else (pyDigits (c :: t)).map Int.ofNat

/-- `to_int` (lines 263-267): `int(str(x).replace(",", "").strip())`,
with `pd.NA` (`none`) when parsing raises. -/
def to_int (x : List Char) : Option Int :=
  pyInt (pyStrip (x.filter (fun c => ¬ c = ',')))

/-- The cell written by an `apply(to_int)` column. -/
def toIntCell (x : List Char) : Cell :=
  match to_int x with
  | some n => Cell.i n
  | none => Cell.na

/-- The legacy-to-canonical column rename table (lines 278-290). -/
def fwRename : String → String
  | "sh_prn" => "share_unit"
  | "putcall" => "put_call"
  | "discr" => "discretion"
  | "mgrs" => "other_managers"
  | "v_sole" => "voting_sole"
  | "v_shared" => "voting_shared"
  | "v_none" => "voting_none"
  | other => other

/-- The per-column numeric coercion and rename (lines 269-290): `value`
becomes the coerced `value_x1000`, `shares` and the voting columns are
coerced in place, all remaining columns are strings renamed by the legacy
table. -/
def coerceCell : String → List Char → String × Cell
  | "value", v => ("value_x1000", toIntCell v)
  | "shares", v => ("shares", toIntCell v)
  | "v_sole", v => ("voting_sole", toIntCell v)
  | "v_shared", v => ("voting_shared", toIntCell v)
  | "v_none", v => ("voting_none", toIntCell v)
  | k, v => (fwRename k, Cell.s v)

/-- Row-wise form of the pandas column transformations. -/
def coerceRow (row : List (String × List Char)) : List (String × Cell) :=
  row.map (fun e => coerceCell e.1 e.2)

/-- `ordered_cols` (lines 291-308). -/
def canonicalCols : List String :=
  ["name", "title", "cusip", "value_x1000", "shares", "share_unit",
    "put_call", "discretion", "other_managers", "voting_sole",
    "voting_shared", "voting_none"]

/-- Column lookup in a coerced row. -/
def cellGet (row : List (String × Cell)) (k : String) : Option (String × Cell) :=
  row.find? (fun e => e.1 == k)

/-- `df[ordered_cols] if ordered_cols else df` (line 309), row-wise: select
the present canonical columns in canonical order; an untouched row when none
is present (Python list truthiness). -/
def reorderRow (row : List (String × Cell)) : List (String × Cell) :=
  if canonicalCols.filterMap (fun c => cellGet row c) = [] then row
  else canonicalCols.filterMap (fun c => cellGet row c)

/-- The fixed-width phase of `_parse_fixed_width_table` (lines 215-309),
entered once the embedded-markup phase fell through: pre-filter the lines of
the block, locate the header, compute spans, extract the rows of
`lines[header_idx + 2:]`, coerce numerics and normalize columns.  The
`Except.error` is the propagated header-location `RuntimeError`. -/
def parseFixedWidthRows (block : List Char) :
    Except (List Char) (List (List (String × Cell))) :=
  let lines := filterSepLines (pySplitlines block)
  match _find_header_positions lines with
  | Except.error e => Except.error e
  | Except.ok info =>
    Except.ok ((extractRows (mkSpans (orderedFields info.pos))
      (lines.drop (info.header_idx + 2))).map (fun r => reorderRow (coerceRow r)))

/-! ## The extraction chain (`read_infotable_df`, lines 312-403) -/

/-- Table rows as the chain sees them. -/
abbrev Table := List (List (String × Cell))

/-- Outcome of a strategy body that is third-party library behaviour
(edgar structured object, SGML-to-XML with the XPath loop): it returned a
table -- `tbl []` also covers a `None` result -- or it raised. -/
inductive StratOutcome where
  | tbl (rows : Table)
  | err
deriving DecidableEq

/-- The provenance of an extraction result. -/
inductive Strategy where
  | structured
  | sgmlXml
  | newParser
  | embeddedMarkup
  | fixedWidth
deriving DecidableEq

/-- `parse_13f_table` (parse_13f_table.py): ignores the input text and
always produces the single hard-coded placeholder row (the source marks
itself `TODO: Implement actual 13F table parsing logic here` -- `For now,
this is a placeholder`).  The CSV write/read round trip is the identity on
these fields. -/
def parse_13f_table (_content : List Char) : Table :=
  [[("Name of Issuer", Cell.s "PLACEHOLDER".data),
    ("Title of Class", Cell.s "COMMON".data),
    ("CUSIP", Cell.s "000000000".data),
    ("Value (thousands)", Cell.s "0".data),
    ("Shares", Cell.s "0".data),
    ("Investment Discretion", Cell.s "D".data),
    ("Put/Call", Cell.s []),
    ("Other Managers", Cell.s []),
    ("Voting Sole", Cell.s "0".data),
    ("Voting Shared", Cell.s "0".data),
    ("Voting None", Cell.s "0".data)]]

/-- The `col_map` rename applied to a successful new-parser table
(lines 370-385). -/
def parserColRename : String → String
  | "Name of Issuer" => "name"
  | "Title of Class" => "title"
  | "CUSIP" => "cusip"
  | "Value (thousands)" => "value_x1000"
  | "Shares" => "shares"
  | "Investment Discretion" => "discretion"
  | "Put/Call" => "put_call"
  | "Other Managers" => "other_managers"
  | "Voting Sole" => "voting_sole"
  | "Voting Shared" => "voting_shared"
  | "Voting None" => "voting_none"
  | other => other

/-- Rename the columns of a new-parser table. -/
def renameParserTable (t : Table) : Table :=
  t.map (fun row => row.map (fun e => (parserColRename e.1, e.2)))

/-- The inputs of one `read_infotable_df` call.  The first two strategies
and the markup phase are library behaviour abstracted as outcomes;
`remote` is the submission text the SEC URL serves; `hasParser` is the
`HAS_PARSER` import flag; `parserIOErr` models the temp-file machinery
around `parse_13f_table` raising; `bs4 = some t` models the BeautifulSoup
phase of `_parse_fixed_width_table` returning the (source-guarded
non-empty) table `t`, `none` that it raised or fell through. -/
structure ChainInput where
  objOutcome : StratOutcome
  sgmlOutcome : StratOutcome
  remote : List Char
  hasParser : Bool
  parserIOErr : Bool
  bs4 : Option Table
deriving DecidableEq

/-- `_fetch_submission_txt` (lines 101-105): one network GET per call --
the source has no cache; the model threads a fetch counter. -/
def _fetch_submission_txt (remote : List Char) (n : Nat) : List Char × Nat :=
  (remote, n + 1)

/-- `_parse_fixed_width_table` (lines 170-309): the BeautifulSoup phase
first, the fixed-width phase when it fell through. -/
def _parse_fixed_width_table (bs4 : Option Table) (block : List Char) :
    Except (List Char) Table :=
  match bs4 with
  | some t => Except.ok t
  | none => parseFixedWidthRows block

/-- Step 4 of the chain (lines 397-403): extract the block, run
`_parse_fixed_width_table`, raise on an empty result. -/
def chainStep4 (inp : ChainInput) (txt : List Char) :
    Except (List Char) (Strategy × Table) :=
  match _parse_fixed_width_table inp.bs4 (_extract_info_table_block txt) with
  | Except.error e => Except.error e
  | Except.ok t =>
    if t = [] then Except.error "TXT fallback produced no rows".data
    else
      Except.ok
        ((if inp.bs4.isSome then Strategy.embeddedMarkup else Strategy.fixedWidth), t)

/-- Steps 3-4 of the chain (lines 344-403): fetch the submission text
(unconditionally -- counted), run the new parser when importable and its
temp-file machinery does not raise, else fall through to step 4. -/
def chainTxt (inp : ChainInput) (n : Nat) :
    (Except (List Char) (Strategy × Table)) × Nat :=
  let fetched := _fetch_submission_txt inp.remote n
  if inp.hasParser && !inp.parserIOErr then
    (Except.ok (Strategy.newParser, renameParserTable (parse_13f_table fetched.1)),
      fetched.2)
  else (chainStep4 inp fetched.1, fetched.2)

/-- Step 2 of the chain (lines 324-342): the SGML/XML strategy; a raise or
an empty/None table falls through to the text strategies. -/
def chainStep2 (inp : ChainInput) (n : Nat) :
    (Except (List Char) (Strategy × Table)) × Nat :=
  match inp.sgmlOutcome with
  | StratOutcome.tbl r =>
    if r = [] then chainTxt inp n else (Except.ok (Strategy.sgmlXml, r), n)
  | StratOutcome.err => chainTxt inp n

/-- `read_infotable_df` (lines 312-403) with the fetch counter threaded:
step 1 is the structured-object strategy; a raise or an empty/None table
falls through to step 2. -/
def read_infotable_df (inp : ChainInput) (n : Nat) :
    (Except (List Char) (Strategy × Table)) × Nat :=
  match inp.objOutcome with
  | StratOutcome.tbl r =>
    if r = [] then chainStep2 inp n else (Except.ok (Strategy.structured, r), n)
  | StratOutcome.err => chainStep2 inp n

/-! ## Spec-side comparison definition and concrete example inputs -/

/-- Modelled from the spec's words (4.5 Row extraction), as the comparison
point for the source-derived `extractRows`: take the data lines before the
first GRAND TOTAL line, keep the non-blank ones whose cusip or value slice
is non-empty, and slice each kept line into the spans. -/
def specRowExtraction (spans : List (String × Nat × Option Nat))
    (lines : List (List Char)) : List (List (String × List Char)) :=
  ((lines.takeWhile (fun ln => !(hasGrandTotal ln))).filter
    (fun ln => decide (¬ pyStrip ln = []) &&
      decide (¬ (rowGet (mkRow spans ln) "cusip" = [] ∧
        rowGet (mkRow spans ln) "value" = [])))).map (mkRow spans)

/-- A raw submission fragment whose fixed-width table carries the negative
value `-5` (exercises the sign handling of `to_int`). -/
def c8CexBlock : List Char :=
  "NAME OF ISSUER   CUSIP     VALUE\nX\nFOO CO           123456789 -5\n".data

/-- A raw submission fragment whose fixed-width value column carries the
comma-grouped `1,234`. -/
def c8PosBlock : List Char :=
  "NAME OF ISSUER   CUSIP     VALUE\nZ\nBAZ CO           111111111 1,234\n".data

/-- A raw submission whose block contains a complete, parseable fixed-width
table. -/
def c3Block : List Char :=
  "Form 13F Information Table\nNAME OF ISSUER   CUSIP     VALUE\nY\nBAR INC          999999999 77\nGRAND TOTAL  77\n".data

/-- A chain input whose structured-object and SGML/XML strategies both
raise, over `c3Block`, with the placeholder parser importable. -/
def c3Inp : ChainInput :=
  { objOutcome := StratOutcome.err, sgmlOutcome := StratOutcome.err,
    remote := c3Block, hasParser := true, parserIOErr := false, bs4 := none }

/-- A chain input whose submission text has no recognizable header line and
whose earlier strategies all fail (`HAS_PARSER` false: the import of
parse_13f_table failed). -/
def c5Inp : ChainInput :=
  { objOutcome := StratOutcome.err, sgmlOutcome := StratOutcome.err,
    remote := "no header here at all".data, hasParser := false,
    parserIOErr := false, bs4 := none }

/-- A chain input forced onto the text path (both object strategies fail). -/
def c9Inp : ChainInput :=
  { objOutcome := StratOutcome.err, sgmlOutcome := StratOutcome.err,
    remote := "some cached submission text".data, hasParser := true,
    parserIOErr := false, bs4 := none }

/-- A text containing both block markers. -/
def c4Text : List Char :=
  "XXForm 13F Information Table : stuff GRAND TOTAL 999 tail".data

/-- A text containing the start marker but no end marker. -/
def c4NoEnd : List Char :=
  "XXForm 13F Information Table no end marker".data

/-- A line list whose second line is the header. -/
def c5Lines : List (List Char) :=
  ["junk".data, "NAME OF ISSUER  CUSIP  VALUE".data]

/-- Header line of the voting-authority example: `VOTING AUTHORITY` starts
at offset 30. -/
def c10Hdr : List Char := "NAME OF ISSUER  CUSIP  VALUE  VOTING AUTHORITY".data

/-- Following line of the voting-authority example: `SOLE` starts at
offset 0. -/
def c10Nxt : List Char := "SOLE  SHARED  NONE".data

theorem findSub_eq_some_iff (hay needle : List Char) (j : Nat) :
    findSub hay needle = some j ↔ firstOccur hay needle j := by
  induction hay generalizing j with
  | nil =>
    cases needle with
    | nil =>
      simp only [findSub, firstOccur, occursAt, List.drop_nil, Option.some.injEq]
      constructor
      · rintro rfl
        exact ⟨ List.nil_prefix, by omega⟩
      · rintro ⟨-, hall⟩
        by_contra hne
        exact hall 0 (by omega) List.nil_prefix
    | cons a as =>
      simp only [findSub, firstOccur, occursAt, List.drop_nil]
      constructor
      · rintro ⟨⟩
      · rintro ⟨hp, -⟩
        exact absurd (List.prefix_nil.mp hp) (by simp)
  | cons c t ih =>
    simp only [findSub]
    by_cases hp : needle.isPrefixOf (c :: t)
    · rw [ List.isPrefixOf_iff_prefix] at hp
      simp only [if_pos ( List.isPrefixOf_iff_prefix.mpr hp), Option.some.injEq]
      constructor
      · rintro rfl
        exact ⟨by simpa [occursAt] using hp, by omega⟩
      · rintro ⟨-, hall⟩
        by_contra hne
        exact hall 0 (by omega) (by simpa [occursAt] using hp)
    · have hp' : ¬ needle <+: (c :: t) := fun h => hp ( List.isPrefixOf_iff_prefix.mpr h)
      simp only [if_neg hp, Option.map_eq_some']
      constructor
      · rintro ⟨j', hj', rfl⟩
        obtain ⟨h1, h2⟩ := (ih j').mp hj'
        refine ⟨by simpa [occursAt] using h1, ?_⟩
        intro k hk
        cases k with
        | zero => simpa [occursAt] using hp'
        | succ k' =>
          intro hocc
          exact h2 k' (by omega) (by simpa [occursAt] using hocc)
      · rintro ⟨h1, h2⟩
        cases j with
        | zero => exact absurd (by simpa [occursAt] using h1) hp'
        | succ j' =>
          refine ⟨j', (ih j').mpr ⟨by simpa [occursAt] using h1, ?_⟩, rfl⟩
          intro k hk hocc
          exact h2 (k + 1) (by omega) (by simpa [occursAt] using hocc)

theorem findSub_eq_none_iff (hay needle : List Char) :
    findSub hay needle = none ↔ ∀ k, ¬ occursAt hay needle k := by
  induction hay with
  | nil =>
    cases needle with
    | nil =>
      simp only [findSub, occursAt, List.drop_nil]
      constructor
      · rintro ⟨⟩
      · intro hall
        exact absurd List.nil_prefix (hall 0)
    | cons a as =>
      simp only [findSub, occursAt, List.drop_nil]
      constructor
      · intro _ k hk
        exact absurd (List.prefix_nil.mp hk) (by simp)
      · intro _
        trivial
  | cons c t ih =>
    simp only [findSub]
    by_cases hp : needle.isPrefixOf (c :: t)
    · simp only [if_pos hp]
      constructor
      · rintro ⟨⟩
      · intro hall
        exact absurd (by simpa [occursAt] using List.isPrefixOf_iff_prefix.mp hp) (hall 0)
    · have hp' : ¬ needle <+: (c :: t) := fun h => hp ( List.isPrefixOf_iff_prefix.mpr h)
      simp only [if_neg hp, Option.map_eq_none']
      rw [ih]
      constructor
      · intro hall k
        cases k with
        | zero => simpa [occursAt] using hp'
        | succ k' => simpa [occursAt] using hall k'
      · intro hall k
        simpa [occursAt] using hall (k + 1)

theorem firstIdx_eq_some_iff (p : α → Bool) (l : List α) (j : Nat) :
    firstIdx p l = some j ↔
      (∃ a, l.get? j = some a ∧ p a = true) ∧
        ∀ k < j, ∀ a, l.get? k = some a → ¬ p a = true := by
  induction l generalizing j with
  | nil => simp [firstIdx]
  | cons x t ih =>
    simp only [firstIdx]
    by_cases hx : p x
    · simp only [if_pos hx, Option.some.injEq]
      constructor
      · rintro rfl
        exact ⟨⟨x, rfl, hx⟩, by omega⟩
      · rintro ⟨-, hall⟩
        by_contra hne
        cases j with
        | zero => exact hne rfl
        | succ j' => exact hall 0 (by omega) x rfl hx
    · simp only [if_neg hx, Option.map_eq_some']
      constructor
      · rintro ⟨j', hj', rfl⟩
        obtain ⟨h1, h2⟩ := (ih j').mp hj'
        refine ⟨by simpa using h1, ?_⟩
        intro k hk a ha
        cases k with
        | zero =>
          simp only [List.get?_cons_zero, Option.some.injEq] at ha
          subst ha
          exact fun h => hx h
        | succ k' => exact h2 k' (by omega) a (by simpa using ha)
      · rintro ⟨h1, h2⟩
        cases j with
        | zero =>
          obtain ⟨a, ha, hpa⟩ := h1
          simp only [List.get?_cons_zero, Option.some.injEq] at ha
          subst ha
          exact absurd hpa hx
        | succ j' =>
          refine ⟨j', (ih j').mpr ⟨by simpa using h1, ?_⟩, rfl⟩
          intro k hk a ha
          exact h2 (k + 1) (by omega) a (by simpa using ha)

theorem firstIdx_eq_none_iff (p : α → Bool) (l : List α) :
    firstIdx p l = none ↔ ∀ a ∈ l, ¬ p a = true := by
  induction l with
  | nil => simp [firstIdx]
  | cons x t ih =>
    simp only [firstIdx]
    by_cases hx : p x
    · simp [if_pos hx, hx]
    · simp only [if_neg hx, Option.map_eq_none', ih, List.mem_cons]
      constructor
      · rintro hall a (rfl | ha)
        · exact hx
        · exact hall a ha
      · intro hall a ha
        exact hall a (Or.inr ha)

theorem lexLt_trichotomy : ∀ s t : List Char,
    lexLt s t = true ∨ s = t ∨ lexLt t s = true
  | [], [] => Or.inr (Or.inl rfl)
  | [], _ :: _ => Or.inl rfl
  | _ :: _, [] => Or.inr (Or.inr rfl)
  | a :: s, b :: t => by
    by_cases hab : a = b
    · subst hab
      simp only [lexLt, if_pos rfl]
      rcases lexLt_trichotomy s t with h | h | h
      · exact Or.inl h
      · exact Or.inr (Or.inl (by rw [h]))
      · exact Or.inr (Or.inr h)
    · rcases Nat.lt_trichotomy a.toNat b.toNat with h | h | h
      · exact Or.inl (by simp [lexLt, if_neg hab, h])
      · exact absurd (Char.ext (UInt32.ext h)) hab
      · have hba : ¬ b = a := fun e => hab e.symm
        exact Or.inr (Or.inr (by simp [lexLt, if_neg hba, h]))

theorem lexLt_trans : ∀ {s t u : List Char},
    lexLt s t = true → lexLt t u = true → lexLt s u = true
  | [], [], _, h1, _ => by simp [lexLt] at h1
  | [], _ :: _, [], _, h2 => by simp [lexLt] at h2
  | [], _ :: _, _ :: _, _, _ => rfl
  | _ :: _, [], _, h1, _ => by simp [lexLt] at h1
  | _ :: _, _ :: _, [], _, h2 => by simp [lexLt] at h2
  | a :: s, b :: t, c :: u, h1, h2 => by
    by_cases hab : a = b <;> by_cases hbc : b = c
    · subst hab; subst hbc
      simp only [lexLt, if_pos rfl] at h1 h2 ⊢
      exact lexLt_trans h1 h2
    · subst hab
      simpa [lexLt, hbc] using h2
    · subst hbc
      simpa [lexLt, hab] using h1
    · simp only [lexLt, if_neg hab, decide_eq_true_eq] at h1
      simp only [lexLt, if_neg hbc, decide_eq_true_eq] at h2
      have hac : a.toNat < c.toNat := Nat.lt_trans h1 h2
      have hne : ¬ a = c := fun e => by
        subst e
        exact Nat.lt_irrefl _ (Nat.lt_trans h1 h2)
      simp [lexLt, if_neg hne, hac]

instance : IsTotal Filing filingKeyLe where
  total a b := by
    unfold filingKeyLe filingKeyLeB
    rcases lexLt_trichotomy a.filing_date.data b.filing_date.data with h | h | h
    · left; simp [h]
    · have hd : a.filing_date = b.filing_date := String.ext h
      rcases lexLt_trichotomy a.accession_number.data b.accession_number.data
        with h' | h' | h'
      · left; simp [hd, h']
      · left
        have : a.accession_number = b.accession_number := String.ext h'
        simp [hd, this]
      · right; simp [hd.symm, h']
    · right; simp [h]

instance : IsTrans Filing filingKeyLe where
  trans a b c h1 h2 := by
    unfold filingKeyLe filingKeyLeB at h1 h2 ⊢
    simp only [Bool.or_eq_true, Bool.and_eq_true, beq_iff_eq] at h1 h2 ⊢
    rcases h1 with h1 | ⟨hd1, h1⟩ <;> rcases h2 with h2 | ⟨hd2, h2⟩
    · exact Or.inl (lexLt_trans h1 h2)
    · rw [← hd2]; exact Or.inl h1
    · rw [hd1]; exact Or.inl h2
    · refine Or.inr ⟨hd1.trans hd2, ?_⟩
      rcases h1 with h1 | h1 <;> rcases h2 with h2 | h2
      · exact Or.inl (lexLt_trans h1 h2)
      · rw [← h2]; exact Or.inl h1
      · rw [h1]; exact Or.inl h2
      · exact Or.inr (h1.trans h2)

theorem findSub_isSome_iff (hay needle : List Char) :
    (findSub hay needle).isSome = true ↔ ∃ k, occursAt hay needle k := by
  cases h : findSub hay needle with
  | none =>
    simp only [Option.isSome_none, Bool.false_eq_true, false_iff]
    rw [findSub_eq_none_iff] at h
    rintro ⟨k, hk⟩
    exact h k hk
  | some j =>
    simp only [Option.isSome_some, true_iff]
    exact ⟨j, ((findSub_eq_some_iff _ _ _).mp h).1⟩

theorem posKw_of_firstOccur {hay needle : List Char} {p : Nat}
    (h : firstOccur (upperL hay) needle p) : posKw hay needle = some p :=
  (findSub_eq_some_iff _ _ _).mpr h

theorem head?_of_prefix_cons {a : Char} {s x : List Char} (h : (a :: s) <+: x) :
    x.head? = some a := by
  obtain ⟨t, rfl⟩ := h
  rfl

theorem pyStrip_eq_nil_all_space {l : List Char} (h : pyStrip l = []) :
    ∀ c ∈ l, pyIsSpace c = true := by
  intro c hc
  have h1 : List.dropWhile pyIsSpace ((List.dropWhile pyIsSpace l).reverse) = [] :=
    List.reverse_eq_nil_iff.mp h
  have h3 : ∀ a ∈ List.dropWhile pyIsSpace l, pyIsSpace a = true := by
    intro a ha
    exact List.dropWhile_eq_nil_iff.mp h1 a (List.mem_reverse.mpr ha)
  have hsplit := List.takeWhile_append_dropWhile pyIsSpace l
  rw [← hsplit] at hc
  rcases List.mem_append.mp hc with hm | hm
  · exact List.mem_takeWhile_imp hm
  · exact h3 c hm

theorem mem_of_mem_pyStrip {c : Char} {l : List Char} (h : c ∈ pyStrip l) :
    c ∈ l := by
  unfold pyStrip at h
  rw [List.mem_reverse] at h
  have h1 : c ∈ (List.dropWhile pyIsSpace l).reverse :=
    (List.dropWhile_sublist _).mem h
  rw [List.mem_reverse] at h1
  exact (List.dropWhile_sublist _).mem h1

theorem blank_no_grand_total {ln : List Char} (h : pyStrip ln = []) :
    hasGrandTotal ln = false := by
  cases hval : hasGrandTotal ln with
  | false => rfl
  | true =>
    exfalso
    have hgt : (findSub (upperL ln) "GRAND TOTAL".data).isSome = true := hval
    obtain ⟨k, hk⟩ := (findSub_isSome_iff _ _).mp hgt
    have hG : 'G' ∈ (upperL ln).drop k := by
      obtain ⟨t, ht⟩ := hk
      rw [← ht]
      exact List.mem_append.mpr (Or.inl (by decide))
    obtain ⟨c, hc, hcu⟩ := List.mem_map.mp (List.mem_of_mem_drop hG)
    have hsp := pyStrip_eq_nil_all_space h c hc
    simp only [pyIsSpace, Bool.or_eq_true, decide_eq_true_eq] at hsp
    rcases hsp with ((((rfl | rfl) | rfl) | rfl) | rfl) | rfl <;>
      exact absurd hcu (by decide)

theorem mkSpans_get? : ∀ (fields : List (String × Nat)) (i : Nat),
    (mkSpans fields).get? i
      = (fields.get? i).map (fun f => (f.1, f.2, (fields.get? (i + 1)).map Prod.snd)) := by
  intro fields
  induction fields with
  | nil => intro i; cases i <;> simp [mkSpans]
  | cons f rest ih =>
    intro i
    obtain ⟨k, s⟩ := f
    cases rest with
    | nil =>
      cases i with
      | zero => simp [mkSpans]
      | succ j => cases j <;> simp [mkSpans]
    | cons f2 rest2 =>
      obtain ⟨k2, s2⟩ := f2
      cases i with
      | zero => simp [mkSpans]
      | succ j => simpa [mkSpans] using ih j

theorem extractRows_eq_specRowExtraction
    (spans : List (String × Nat × Option Nat)) :
    ∀ lines, extractRows spans lines = specRowExtraction spans lines := by
  intro lines
  induction lines with
  | nil => rfl
  | cons ln rest ih =>
    by_cases hb : pyStrip ln = []
    · have hgt : hasGrandTotal ln = false := blank_no_grand_total hb
      simp [extractRows, specRowExtraction, hb, hgt, ih]
    · by_cases hg : hasGrandTotal ln = true
      · simp [extractRows, specRowExtraction, hb, hg]
      · have hg' : hasGrandTotal ln = false := by
          cases hval : hasGrandTotal ln
          · rfl
          · exact absurd hval hg
        by_cases hcv : rowGet (mkRow spans ln) "cusip" = [] ∧
            rowGet (mkRow spans ln) "value" = []
        · simp [extractRows, specRowExtraction, hb, hg', hcv, ih]
        · have hcond : (!decide (pyStrip ln = []) &&
              (!decide (rowGet (mkRow spans ln) "cusip" = []) ||
                !decide (rowGet (mkRow spans ln) "value" = []))) = true := by
            rcases not_and_or.mp hcv with hx | hx <;> simp [hb, hx]
          simp only [extractRows, specRowExtraction, if_neg hb, if_neg hg,
            if_neg hcv, List.takeWhile_cons, hg', Bool.not_false, if_pos rfl,
            List.filter_cons, hcond, ih]
          simp [hcond]

theorem mem_extractRows {spans : List (String × Nat × Option Nat)}
    {row : List (String × List Char)} :
    ∀ {lines}, row ∈ extractRows spans lines → ∃ ln, row = mkRow spans ln := by
  intro lines
  induction lines with
  | nil => intro h; simp [extractRows] at h
  | cons ln rest ih =>
    intro h
    simp only [extractRows] at h
    split_ifs at h with h1 h2 h3
    · exact ih h
    · simp at h
    · exact ih h
    · rcases List.mem_cons.mp h with rfl | hmem
      · exact ⟨ln, rfl⟩
      · exact ih hmem

theorem mkRow_key_mem {spans : List (String × Nat × Option Nat)}
    {ln : List Char} {k : String} {v : List Char}
    (h : (k, v) ∈ mkRow spans ln) : ∃ e ∈ spans, k = e.1 := by
  obtain ⟨e, he, heq⟩ := List.mem_map.mp h
  refine ⟨e, he, ?_⟩
  have := congrArg Prod.fst heq
  exact this.symm

theorem mkSpans_key_mem : ∀ {fields : List (String × Nat)}
    {e : String × Nat × Option Nat}, e ∈ mkSpans fields → ∃ f ∈ fields, e.1 = f.1 := by
  intro fields
  induction fields with
  | nil => intro e h; simp [mkSpans] at h
  | cons f rest ih =>
    intro e h
    obtain ⟨k, s⟩ := f
    cases rest with
    | nil =>
      simp only [mkSpans, List.mem_singleton] at h
      subst h
      exact ⟨(k, s), List.mem_cons_self _ _, rfl⟩
    | cons f2 rest2 =>
      obtain ⟨k2, s2⟩ := f2
      simp only [mkSpans, List.mem_cons] at h
      rcases h with rfl | h
      · exact ⟨(k, s), List.mem_cons_self _ _, rfl⟩
      · obtain ⟨g, hg, hge⟩ := ih h
        exact ⟨g, List.mem_cons_of_mem _ hg, hge⟩

theorem orderedFields_key_mem {p : Positions} {f : String × Nat}
    (h : f ∈ orderedFields p) : f.1 ∈ fwKeys := by
  have h1 : f ∈ fwKeys.filterMap (fun k => (posGet p k).map (fun v => (k, v))) :=
    (List.perm_insertionSort _ _).mem_iff.mp h
  obtain ⟨k, hk, hf⟩ := List.mem_filterMap.mp h1
  obtain ⟨v, -, hveq⟩ := Option.map_eq_some'.mp hf
  cases hveq
  exact hk

theorem reorderRow_mem {row : List (String × Cell)} {e : String × Cell}
    (h : e ∈ reorderRow row) : e ∈ row := by
  unfold reorderRow at h
  split_ifs at h with h1
  · exact h
  · obtain ⟨c, -, hc⟩ := List.mem_filterMap.mp h
    exact List.mem_of_find?_eq_some hc

theorem coerceCell_numeric {k0 : String} {v : List Char} (hk : k0 ∈ fwKeys)
    (hnum : (coerceCell k0 v).1 = "value_x1000" ∨ (coerceCell k0 v).1 = "shares" ∨
      (coerceCell k0 v).1 = "voting_sole" ∨ (coerceCell k0 v).1 = "voting_shared" ∨
      (coerceCell k0 v).1 = "voting_none") :
    (coerceCell k0 v).2 = toIntCell v := by
  simp only [fwKeys, List.mem_cons, List.not_mem_nil, or_false] at hk
  rcases hk with rfl | rfl | rfl | rfl | rfl | rfl | rfl | rfl | rfl | rfl | rfl | rfl
  · rw [show (coerceCell "name" v).1 = "name" from rfl] at hnum
    exact absurd hnum (by decide)
  · rw [show (coerceCell "title" v).1 = "title" from rfl] at hnum
    exact absurd hnum (by decide)
  · rw [show (coerceCell "cusip" v).1 = "cusip" from rfl] at hnum
    exact absurd hnum (by decide)
  · rfl
  · rfl
  · rw [show (coerceCell "sh_prn" v).1 = "share_unit" from rfl] at hnum
    exact absurd hnum (by decide)
  · rw [show (coerceCell "putcall" v).1 = "put_call" from rfl] at hnum
    exact absurd hnum (by decide)
  · rw [show (coerceCell "discr" v).1 = "discretion" from rfl] at hnum
    exact absurd hnum (by decide)
  · rw [show (coerceCell "mgrs" v).1 = "other_managers" from rfl] at hnum
    exact absurd hnum (by decide)
  · rfl
  · rfl
  · rfl

theorem toIntCell_na_or_int (v : List Char) :
    toIntCell v = Cell.na ∨ ∃ n : Int, toIntCell v = Cell.i n := by
  unfold toIntCell
  cases to_int v with
  | none => exact Or.inl rfl
  | some n => exact Or.inr ⟨n, rfl⟩

theorem pyInt_neg {s : List Char} {n : Int} (h : pyInt s = some n) (hneg : n < 0) :
    '-' ∈ s := by
  cases s with
  | nil => simp [pyInt] at h
  | cons c t =>
    simp only [pyInt] at h
    split_ifs at h with h1 h2
    · obtain ⟨m, -, hm⟩ := Option.map_eq_some'.mp h
      have hmn : (m : Int) = n := by exact_mod_cast hm
      exact absurd hneg (by omega)
    · rw [h2]
      exact List.mem_cons_self _ _
    · obtain ⟨m, -, hm⟩ := Option.map_eq_some'.mp h
      have hmn : (m : Int) = n := by exact_mod_cast hm
      exact absurd hneg (by omega)

theorem to_int_neg {x : List Char} {n : Int} (h : to_int x = some n)
    (hneg : n < 0) : '-' ∈ x := by
  have h1 : '-' ∈ pyStrip (x.filter (fun c => ¬ c = ',')) := pyInt_neg h hneg
  have h2 : '-' ∈ x.filter (fun c => ¬ c = ',') := mem_of_mem_pyStrip h1
  exact (List.mem_filter.mp h2).1

theorem pyOrN_eq_some_zero {a b : Option Nat} (h : pyOrN a b = some 0) :
    b = some 0 := by
  cases a with
  | none => exact h
  | some n =>
    by_cases h1 : n = 0
    · subst h1
      simpa [pyOrN] using h
    · have e : pyOrN (some n) b = some n := by simp [pyOrN, h1]
      rw [e] at h
      injection h with h2
      exact absurd h2 h1

theorem quarterCore_len_ne_six : ∀ yq : List Char, yq.length ≠ 6 →
    quarterCore yq = Except.error (invalidQuarterMsg yq)
  | [], _ => rfl
  | [_], _ => rfl
  | [_, _], _ => rfl
  | [_, _, _], _ => rfl
  | [_, _, _, _], _ => rfl
  | [_, _, _, _, _], _ => rfl
  | [_, _, _, _, _, _], h => absurd rfl h
  | _ :: _ :: _ :: _ :: _ :: _ :: _ :: _, _ => rfl

/-- Claim C1 (corrected), theorem: after `strip().upper()` normalization a
token succeeds exactly when it has length 6, its fifth character is `Q` and
its sixth is a digit 1-4, in which case the result joins the first four
characters (whatever they are -- the source never checks that they are
digits) to the fixed quarter-end suffix; every other token raises
`ValueError` naming the normalized token. -/
theorem C1_quarter_token (yq0 : List Char) :
    (∀ y1 y2 y3 y4 q d, upperL (pyStrip yq0) = [y1, y2, y3, y4, q, d] →
      (q = 'Q' → ∀ sfx, quarterEnd d = some sfx →
        quarter_to_period_end yq0 = Except.ok ([y1, y2, y3, y4] ++ '-' :: sfx)) ∧
      (q = 'Q' → quarterEnd d = none →
        quarter_to_period_end yq0
          = Except.error (invalidQuarterMsg [y1, y2, y3, y4, q, d])) ∧
      (¬ q = 'Q' →
        quarter_to_period_end yq0
          = Except.error (invalidQuarterMsg [y1, y2, y3, y4, q, d]))) ∧
    ((upperL (pyStrip yq0)).length ≠ 6 →
      quarter_to_period_end yq0
        = Except.error (invalidQuarterMsg (upperL (pyStrip yq0)))) := by
  constructor
  · intro y1 y2 y3 y4 q d h
    refine ⟨?_, ?_, ?_⟩
    · intro hq sfx hsfx
      subst hq
      simp [quarter_to_period_end, h, quarterCore, hsfx]
    · intro hq hsfx
      subst hq
      simp [quarter_to_period_end, h, quarterCore, hsfx]
    · intro hq
      simp [quarter_to_period_end, h, quarterCore, if_neg hq]
  · intro hlen
    exact quarterCore_len_ne_six _ hlen

/-- Claim C1, witness: ` 2013q2 ` normalizes to `2013Q2` and maps to
`2013-06-30`. -/
theorem C1_quarter_token_witness :
    upperL (pyStrip " 2013q2 ".data) = ['2', '0', '1', '3', 'Q', '2'] ∧
      quarterEnd '2' = some "06-30".data ∧
      quarter_to_period_end " 2013q2 ".data = Except.ok "2013-06-30".data := by
  refine ⟨by decide, by decide, ?_⟩
  have h := ((C1_quarter_token " 2013q2 ".data).1 '2' '0' '1' '3' 'Q' '2'
    (by decide)).1 rfl "06-30".data (by decide)
  rw [h]
  decide

/-- Claim C1, counterexample to the claim as stated: the token `ABCDQ1`
deviates from the 4-digits+Q+digit form (its first four characters are not
digits), yet the function does not fail: it returns `ABCD-03-31`. -/
theorem C1_quarter_token_counterexample :
    quarter_to_period_end "ABCDQ1".data = Except.ok "ABCD-03-31".data := by
  decide

/-- Claim C2 (confirmed): `pick_latest_for_period` sorts ascending by the
pair `(filing_date, accession_number)` (the first two conjuncts state that
the sort is a permutation and is sorted under the key order) and then
returns the last-sorted amendment filing if one exists, else the last-sorted
base-form filing if one exists, else the last filing of the sorted list;
on a non-empty input it always returns a filing. -/
theorem C2_pick_latest_for_period (fs : List Filing) (hne : fs ≠ []) :
    (sortFilings fs).Perm fs ∧
    List.Sorted filingKeyLe (sortFilings fs) ∧
    ((∃ f ∈ fs, isHRA f.form = true) →
      pick_latest_for_period fs
        = ((sortFilings fs).filter (fun f => isHRA f.form)).getLast?) ∧
    ((∀ f ∈ fs, ¬ isHRA f.form = true) → (∃ f ∈ fs, isHR f.form = true) →
      pick_latest_for_period fs
        = ((sortFilings fs).filter (fun f => isHR f.form)).getLast?) ∧
    ((∀ f ∈ fs, ¬ isHRA f.form = true) → (∀ f ∈ fs, ¬ isHR f.form = true) →
      pick_latest_for_period fs = (sortFilings fs).getLast?) ∧
    (pick_latest_for_period fs).isSome = true := by
  have hperm : (sortFilings fs).Perm fs := List.perm_insertionSort _ _
  have hsorted : List.Sorted filingKeyLe (sortFilings fs) :=
    List.sorted_insertionSort _ _
  refine ⟨hperm, hsorted, ?_, ?_, ?_, ?_⟩
  · rintro ⟨f, hf, hp⟩
    have hmem : f ∈ (sortFilings fs).filter (fun f => isHRA f.form) :=
      List.mem_filter.mpr ⟨hperm.mem_iff.mpr hf, hp⟩
    obtain ⟨x, hx⟩ := Option.isSome_iff_exists.mp
      (List.getLast?_isSome.mpr (List.ne_nil_of_mem hmem))
    simp only [pick_latest_for_period, hx]
  · intro hall hex
    have h1 : ((sortFilings fs).filter (fun f => isHRA f.form)).getLast? = none := by
      rw [List.filter_eq_nil_iff.mpr (fun a ha => hall a (hperm.mem_iff.mp ha))]
      rfl
    obtain ⟨f, hf, hp⟩ := hex
    have hmem : f ∈ (sortFilings fs).filter (fun f => isHR f.form) :=
      List.mem_filter.mpr ⟨hperm.mem_iff.mpr hf, hp⟩
    obtain ⟨x, hx⟩ := Option.isSome_iff_exists.mp
      (List.getLast?_isSome.mpr (List.ne_nil_of_mem hmem))
    simp only [pick_latest_for_period, h1, hx]
  · intro hall1 hall2
    have h1 : ((sortFilings fs).filter (fun f => isHRA f.form)).getLast? = none := by
      rw [List.filter_eq_nil_iff.mpr (fun a ha => hall1 a (hperm.mem_iff.mp ha))]
      rfl
    have h2 : ((sortFilings fs).filter (fun f => isHR f.form)).getLast? = none := by
      rw [List.filter_eq_nil_iff.mpr (fun a ha => hall2 a (hperm.mem_iff.mp ha))]
      rfl
    simp only [pick_latest_for_period, h1, h2]
  · have hne' : sortFilings fs ≠ [] := by
      intro h
      exact hne (List.Perm.eq_nil (h ▸ hperm.symm))
    simp only [pick_latest_for_period]
    split
    · rfl
    · split
      · rfl
      · exact List.getLast?_isSome.mpr hne'

/-- The base-form filing filed 2021-01-01 from the spec's worked example. -/
def fB1 : Filing := ⟨"2021-01-01", "1", "13F-HR"⟩

/-- The amendment filed 2021-02-01 from the spec's worked example. -/
def fA2 : Filing := ⟨"2021-02-01", "2", "13F-HR/A"⟩

/-- The base-form filing filed 2021-01-15 from the spec's worked example. -/
def fB3 : Filing := ⟨"2021-01-15", "3", "13F-HR"⟩

/-- Claim C2, witness: the spec's worked examples, resolved through the
theorem: the amendment wins over the two base filings, and between two base
filings the later-filed one wins. -/
theorem C2_pick_latest_for_period_witness :
    ([fB1, fA2, fB3] ≠ ([] : List Filing)) ∧
      pick_latest_for_period [fB1, fA2, fB3] = some fA2 ∧
      pick_latest_for_period [fB1, fB3] = some fB3 := by
  refine ⟨by decide, ?_, ?_⟩
  · have h := (C2_pick_latest_for_period [fB1, fA2, fB3] (by decide)).2.2.1
      ⟨fA2, by decide, by decide⟩
    rw [h]
    decide
  · have h := (C2_pick_latest_for_period [fB1, fB3] (by decide)).2.2.2.1
      (by decide) ⟨fB1, by decide, by decide⟩
    rw [h]
    decide

/-- Claim C4 (corrected), theorem: the text-block extraction returns the
whole text when the start marker is absent from the lower-cased text; when
the start marker first occurs at `i`, it returns the slice from `i` through
the end of the first following `grand total`, and -- the case the claim
omits -- the tail from `i` when no `grand total` follows. -/
theorem C4_extract_info_table_block (txt : List Char) :
    ((∀ k, ¬ occursAt (lowerL txt) startKey k) →
      _extract_info_table_block txt = txt) ∧
    (∀ i, firstOccur (lowerL txt) startKey i →
      ((∀ k, ¬ occursAt ((lowerL txt).drop i) endKey k) →
        _extract_info_table_block txt = txt.drop i) ∧
      (∀ j, firstOccur ((lowerL txt).drop i) endKey j →
        _extract_info_table_block txt = (txt.drop i).take (j + endKey.length))) := by
  constructor
  · intro h
    have h0 : findSub (lowerL txt) startKey = none := (findSub_eq_none_iff _ _).mpr h
    simp only [_extract_info_table_block, h0]
  · intro i hi
    have h0 : findSub (lowerL txt) startKey = some i :=
      (findSub_eq_some_iff _ _ _).mpr hi
    constructor
    · intro h
      have h1 : findSub ((lowerL txt).drop i) endKey = none :=
        (findSub_eq_none_iff _ _).mpr h
      simp only [_extract_info_table_block, h0, h1]
    · intro j hj
      have h1 : findSub ((lowerL txt).drop i) endKey = some j :=
        (findSub_eq_some_iff _ _ _).mpr hj
      simp only [_extract_info_table_block, h0, h1]

/-- Claim C4, witness: a text with both markers, the start marker first at
index 2 and `grand total` first at relative index 35, resolved through the
theorem. -/
theorem C4_extract_info_table_block_witness :
    firstOccur (lowerL c4Text) startKey 2 ∧
      firstOccur ((lowerL c4Text).drop 2) endKey 35 ∧
      _extract_info_table_block c4Text
        = "Form 13F Information Table : stuff GRAND TOTAL".data := by
  refine ⟨by decide, by decide, ?_⟩
  have h := ((C4_extract_info_table_block c4Text).2 2 (by decide)).2 35 (by decide)
  rw [h]
  decide

/-- Claim C4, counterexample to the claim as stated: the start marker is
present (first occurrence at index 2), so the claim requires the returned
block to end at the end of a following `grand total`; but the text has no
`grand total` and the returned block contains none -- the code returns the
tail of the text instead. -/
theorem C4_extract_info_table_block_counterexample :
    findSub (lowerL c4NoEnd) startKey = some 2 ∧
      (∀ k, ¬ occursAt (lowerL (_extract_info_table_block c4NoEnd)) endKey k) ∧
      _extract_info_table_block c4NoEnd = c4NoEnd.drop 2 := by
  refine ⟨by decide, ?_, by decide⟩
  exact (findSub_eq_none_iff _ _).mp (by decide)

/-- Claim C7 (confirmed): the data-line loop equals its specification
(consume only the lines before the first line whose uppercased content
contains GRAND TOTAL, skip blank lines, drop lines whose cusip and value
slices are both empty, slice the kept lines into the spans), and each span
runs from its field's start offset to the next field's start offset, the
last span to the end of the line. -/
theorem C7_data_line_consumption :
    (∀ (spans : List (String × Nat × Option Nat)) (lines : List (List Char)),
      extractRows spans lines = specRowExtraction spans lines) ∧
    (∀ (fields : List (String × Nat)) (i : Nat),
      (mkSpans fields).get? i
        = (fields.get? i).map
          (fun f => (f.1, f.2, (fields.get? (i + 1)).map Prod.snd))) :=
  ⟨fun spans => extractRows_eq_specRowExtraction spans, mkSpans_get?⟩

set_option maxRecDepth 8000 in
/-- Claim C3 (code bug), evaluation at the failing input: with the
structured-object and SGML/XML strategies both failing, the chain returns
the fabricated placeholder row from `parse_13f_table` (first and second
conjunct), never attempting the embedded-markup or fixed-width strategies
-- although the same submission text holds a real table which the
fixed-width strategy parses, as the run with `HAS_PARSER` false shows
(third conjunct). -/
theorem C3_placeholder_short_circuit :
    (read_infotable_df c3Inp 0).1
        = Except.ok (Strategy.newParser, renameParserTable (parse_13f_table c3Block)) ∧
      renameParserTable (parse_13f_table c3Block)
        = [[("name", Cell.s "PLACEHOLDER".data), ("title", Cell.s "COMMON".data),
            ("cusip", Cell.s "000000000".data), ("value_x1000", Cell.s "0".data),
            ("shares", Cell.s "0".data), ("discretion", Cell.s "D".data),
            ("put_call", Cell.s []), ("other_managers", Cell.s []),
            ("voting_sole", Cell.s "0".data), ("voting_shared", Cell.s "0".data),
            ("voting_none", Cell.s "0".data)]] ∧
      (read_infotable_df { c3Inp with hasParser := false } 0).1
        = Except.ok (Strategy.fixedWidth,
            [[("name", Cell.s "BAR INC".data), ("cusip", Cell.s "999999999".data),
              ("value_x1000", Cell.i 77)]]) := by
  refine ⟨by decide, by decide, by decide⟩

/-- Claim C5 (corrected), theorem: the pre-filter drops exactly the lines
all of whose stripped characters are separators; the header test holds
exactly when the stripped uppercased line contains NAME OF ISSUER, CUSIP
and VALUE; a located header is the first line passing the test; and when no
line passes, `_find_header_positions` fails with the explicit error. -/
theorem C5_header_locator (lines : List (List Char)) :
    (∀ ln, isSepOnly ln = true ↔ ∀ c ∈ pyStrip ln, c ∈ sepChars) ∧
    (∀ ln, isHeaderLine ln = true ↔
      ((∃ i, occursAt (upperL (pyStrip ln)) "NAME OF ISSUER".data i) ∧
        (∃ i, occursAt (upperL (pyStrip ln)) "CUSIP".data i) ∧
        (∃ i, occursAt (upperL (pyStrip ln)) "VALUE".data i))) ∧
    (∀ info, _find_header_positions lines = Except.ok info →
      (∃ ln, lines.get? info.header_idx = some ln ∧ isHeaderLine ln = true) ∧
        ∀ k < info.header_idx, ∀ ln, lines.get? k = some ln →
          ¬ isHeaderLine ln = true) ∧
    ((∀ ln ∈ lines, ¬ isHeaderLine ln = true) →
      _find_header_positions lines
        = Except.error "Could not locate header line.".data) := by
  refine ⟨?_, ?_, ?_, ?_⟩
  · intro ln
    simp [isSepOnly, List.all_eq_true]
  · intro ln
    simp only [isHeaderLine, Bool.and_eq_true, findSub_isSome_iff, occursAt]
    tauto
  · intro info h
    unfold _find_header_positions at h
    cases hidx : firstIdx isHeaderLine lines with
    | none => rw [hidx] at h; exact absurd h (by simp)
    | some idx =>
      rw [hidx] at h
      injection h with h
      subst h
      exact (firstIdx_eq_some_iff _ _ _).mp hidx
  · intro hall
    unfold _find_header_positions
    rw [(firstIdx_eq_none_iff _ _).mpr hall]

/-- Claim C5, witness: a list whose second line is the header, resolved
through the theorem. -/
theorem C5_header_locator_witness :
    _find_header_positions c5Lines
        = Except.ok ⟨1, positionsOf "NAME OF ISSUER  CUSIP  VALUE".data []⟩ ∧
      (∃ ln, c5Lines.get? 1 = some ln ∧ isHeaderLine ln = true) ∧
      (∀ k < 1, ∀ ln, c5Lines.get? k = some ln → ¬ isHeaderLine ln = true) := by
  have hok : _find_header_positions c5Lines
      = Except.ok ⟨1, positionsOf "NAME OF ISSUER  CUSIP  VALUE".data []⟩ := by
    decide
  have h := (C5_header_locator c5Lines).2.2.1 _ hok
  exact ⟨hok, h.1, h.2⟩

/-- Claim C5, counterexample to the claim as stated: the claim calls a
missing header fatal `only to the fixed-width strategy, not to the whole
filing`; but the fixed-width strategy is the chain's last resort, so on a
filing whose other strategies failed (here with the placeholder parser not
importable), the header error is exactly what the whole filing's extraction
fails with. -/
theorem C5_header_error_fails_filing :
    (read_infotable_df c5Inp 0).1
      = Except.error "Could not locate header line.".data := by
  decide

/-- Claim C10 (confirmed): because Python `or` treats the integer 0 as
falsy, a voting sub-column keyword occurring at character offset 0 of the
line after the header is treated as not found: SOLE at 0 makes the sole
offset fall back to the voting-authority block offset, SHARED or NONE at 0
fall back to the previous voting offset plus 10, and in each case the
stored offset is never 0, the true position. -/
theorem C10_zero_offset_truthiness (hdr nxt : List Char) :
    (occursAt (upperL nxt) "SOLE".data 0 →
      (∀ b, vaBlock hdr nxt = some b → (positionsOf hdr nxt).v_sole = some b) ∧
        ¬ (positionsOf hdr nxt).v_sole = some 0) ∧
    (occursAt (upperL nxt) "SHARED".data 0 →
      (∀ s, (positionsOf hdr nxt).v_sole = some s →
        (positionsOf hdr nxt).v_shared = some (s + 10)) ∧
        ¬ (positionsOf hdr nxt).v_shared = some 0) ∧
    (occursAt (upperL nxt) "NONE".data 0 →
      (∀ s, (positionsOf hdr nxt).v_shared = some s →
        (positionsOf hdr nxt).v_none = some (s + 10)) ∧
        ¬ (positionsOf hdr nxt).v_none = some 0) := by
  refine ⟨?_, ?_, ?_⟩
  · intro h0
    have hkw : posKw nxt "SOLE".data = some 0 :=
      posKw_of_firstOccur ⟨h0, by omega⟩
    have hsole : ∀ b, vaBlock hdr nxt = some b →
        (positionsOf hdr nxt).v_sole = some b := by
      intro b hb
      have hvs : (positionsOf hdr nxt).v_sole
          = pyOrN (posKw nxt "SOLE".data) (some b) := by
        simp only [positionsOf]
        rw [hb]
      rw [hvs, hkw]
      rfl
    refine ⟨hsole, ?_⟩
    intro hcontra
    cases hva : vaBlock hdr nxt with
    | none =>
      have hn : (positionsOf hdr nxt).v_sole = none := by
        simp only [positionsOf]
        rw [hva]
      rw [hn] at hcontra
      exact Option.noConfusion hcontra
    | some b =>
      rw [hsole b hva] at hcontra
      injection hcontra with hb0
      subst hb0
      have h1 : posKw nxt "VOTING AUTHORITY".data = some 0 :=
        pyOrN_eq_some_zero hva
      have h1' : occursAt (upperL nxt) "VOTING AUTHORITY".data 0 :=
        ((findSub_eq_some_iff _ _ _).mp h1).1
      have hV : (upperL nxt).head? = some 'V' :=
        head?_of_prefix_cons (show ('V' :: "OTING AUTHORITY".data) <+: upperL nxt from
          by simpa [occursAt] using h1')
      have hS : (upperL nxt).head? = some 'S' :=
        head?_of_prefix_cons (show ('S' :: "OLE".data) <+: upperL nxt from
          by simpa [occursAt] using h0)
      rw [hV] at hS
      injection hS with hc
      exact absurd hc (by decide)
  · intro h0
    have hkw : posKw nxt "SHARED".data = some 0 :=
      posKw_of_firstOccur ⟨h0, by omega⟩
    cases hva : vaBlock hdr nxt with
    | none =>
      have hsn : (positionsOf hdr nxt).v_sole = none := by
        simp only [positionsOf]
        rw [hva]
      have hshn : (positionsOf hdr nxt).v_shared = none := by
        simp only [positionsOf]
        rw [hva]
      constructor
      · intro s hs
        rw [hsn] at hs
        exact Option.noConfusion hs
      · intro hc
        rw [hshn] at hc
        exact Option.noConfusion hc
    | some b =>
      have hsh : (positionsOf hdr nxt).v_shared
          = ((positionsOf hdr nxt).v_sole).map (fun n => n + 10) := by
        simp only [positionsOf]
        rw [hva, hkw]
        rfl
      constructor
      · intro s hs
        rw [hsh, hs]
        rfl
      · intro hc
        rw [hsh] at hc
        cases hsv : (positionsOf hdr nxt).v_sole with
        | none =>
          rw [hsv] at hc
          exact Option.noConfusion hc
        | some s =>
          rw [hsv] at hc
          simp only [Option.map_some', Option.some.injEq] at hc
          omega
  · intro h0
    have hkw : posKw nxt "NONE".data = some 0 :=
      posKw_of_firstOccur ⟨h0, by omega⟩
    cases hva : vaBlock hdr nxt with
    | none =>
      have hshn : (positionsOf hdr nxt).v_shared = none := by
        simp only [positionsOf]
        rw [hva]
      have hnn : (positionsOf hdr nxt).v_none = none := by
        simp only [positionsOf]
        rw [hva]
      constructor
      · intro s hs
        rw [hshn] at hs
        exact Option.noConfusion hs
      · intro hc
        rw [hnn] at hc
        exact Option.noConfusion hc
    | some b =>
      have hvn : (positionsOf hdr nxt).v_none
          = ((positionsOf hdr nxt).v_shared).map (fun n => n + 10) := by
        simp only [positionsOf]
        rw [hva, hkw]
        rfl
      constructor
      · intro s hs
        rw [hvn, hs]
        rfl
      · intro hc
        rw [hvn] at hc
        cases hsv : (positionsOf hdr nxt).v_shared with
        | none =>
          rw [hsv] at hc
          exact Option.noConfusion hc
        | some s =>
          rw [hsv] at hc
          simp only [Option.map_some', Option.some.injEq] at hc
          omega

/-- Claim C10, witness: `SOLE` begins in the first column of the line after
the header, the voting-authority block is at 30, and the stored sole offset
is 30 -- not 0 -- resolved through the theorem. -/
theorem C10_zero_offset_truthiness_witness :
    occursAt (upperL c10Nxt) "SOLE".data 0 ∧
      vaBlock c10Hdr c10Nxt = some 30 ∧
      (positionsOf c10Hdr c10Nxt).v_sole = some 30 ∧
      ¬ (positionsOf c10Hdr c10Nxt).v_sole = some 0 := by
  have h := (C10_zero_offset_truthiness c10Hdr c10Nxt).1 (by decide)
  exact ⟨by decide, by decide, h.1 30 (by decide), h.2⟩

/-- Claim C8 (corrected), theorem: every numeric cell of every parsed row
is the integer marker or the missing marker, never a raw string (first
conjunct); coercion strips all commas and strips whitespace before parsing
(second conjunct, the definition of `to_int`); and a parsed value is
negative only when the raw slice contains a minus sign -- so negative
values can occur, which is the corrected part (third conjunct). -/
theorem C8_numeric_coercion :
    (∀ block rows, parseFixedWidthRows block = Except.ok rows →
      ∀ row ∈ rows, ∀ k c, (k, c) ∈ row →
        (k = "value_x1000" ∨ k = "shares" ∨ k = "voting_sole" ∨
          k = "voting_shared" ∨ k = "voting_none") →
        c = Cell.na ∨ ∃ n : Int, c = Cell.i n) ∧
    (∀ x, to_int x = pyInt (pyStrip (x.filter (fun c => ¬ c = ',')))) ∧
    (∀ x n, to_int x = some n → n < 0 → '-' ∈ x) := by
  refine ⟨?_, fun x => rfl, fun x n h hn => to_int_neg h hn⟩
  intro block rows hrows row hrow k c hkc hknum
  simp only [parseFixedWidthRows] at hrows
  cases hfind : _find_header_positions (filterSepLines (pySplitlines block)) with
  | error e =>
    rw [hfind] at hrows
    exact Except.noConfusion hrows
  | ok info =>
    rw [hfind] at hrows
    injection hrows with hrows
    subst hrows
    obtain ⟨r0, hr0, hrw⟩ := List.mem_map.mp hrow
    subst hrw
    have hcc : (k, c) ∈ coerceRow r0 := reorderRow_mem hkc
    unfold coerceRow at hcc
    obtain ⟨e0, he0, hce⟩ := List.mem_map.mp hcc
    obtain ⟨k0, v0⟩ := e0
    obtain ⟨ln, hln⟩ := mem_extractRows hr0
    subst hln
    obtain ⟨sp, hsp, hk0⟩ := mkRow_key_mem he0
    obtain ⟨f0, hf0, hsp1⟩ := mkSpans_key_mem hsp
    have hk0mem : k0 ∈ fwKeys := by
      rw [hk0, hsp1]
      exact orderedFields_key_mem hf0
    have hfst : (coerceCell k0 v0).1 = k := by rw [hce]
    have hsnd : (coerceCell k0 v0).2 = c := by rw [hce]
    have hcoerce := coerceCell_numeric hk0mem (by rw [hfst]; exact hknum)
    rw [hsnd] at hcoerce
    rw [hcoerce]
    exact toIntCell_na_or_int v0

/-- Claim C8, witness: a comma-grouped value coerces to the integer 1234,
the resulting cell is an integer cell by the theorem, and the negative
parse of `-5` contains a minus sign by the theorem. -/
theorem C8_numeric_coercion_witness :
    parseFixedWidthRows c8PosBlock
        = Except.ok [[("name", Cell.s "BAZ CO".data),
            ("cusip", Cell.s "111111111".data),
            ("value_x1000", Cell.i 1234)]] ∧
      (Cell.i 1234 = Cell.na ∨ ∃ n : Int, Cell.i 1234 = Cell.i n) ∧
      '-' ∈ "-5".data := by
  have hok : parseFixedWidthRows c8PosBlock
      = Except.ok [[("name", Cell.s "BAZ CO".data),
          ("cusip", Cell.s "111111111".data),
          ("value_x1000", Cell.i 1234)]] := by decide
  refine ⟨hok, ?_, ?_⟩
  · exact (C8_numeric_coercion).1 c8PosBlock
      [[("name", Cell.s "BAZ CO".data), ("cusip", Cell.s "111111111".data),
        ("value_x1000", Cell.i 1234)]] hok
      [("name", Cell.s "BAZ CO".data), ("cusip", Cell.s "111111111".data),
        ("value_x1000", Cell.i 1234)] (by decide) "value_x1000" (Cell.i 1234)
      (by decide) (by decide)
  · exact (C8_numeric_coercion).2.2 "-5".data (-5) (by decide) (by decide)

/-- Claim C8, counterexample to the claim as stated: a filing row whose
value slice is `-5` produces the negative coerced value `-5`, so a coerced
numeric field is not always a valid non-negative integer or the missing
marker. -/
theorem C8_numeric_coercion_counterexample :
    parseFixedWidthRows c8CexBlock
        = Except.ok [[("name", Cell.s "FOO CO".data),
            ("cusip", Cell.s "123456789".data),
            ("value_x1000", Cell.i (-5))]] ∧
      (-5 : Int) < 0 :=
  ⟨by decide, by decide⟩

/-- Claim C9 (corrected), theorem: there is no cache -- whenever the first
two strategies fall through, each call of `read_infotable_df` performs
exactly one fresh fetch of the submission text; two sequential runs over
the same input produce identical extraction results (first conjunct), but
the run counter goes from `n` to `n + 1` to `n + 2`: the second run issues
one additional fetch, not zero. -/
theorem C9_no_cache_refetch (inp : ChainInput) (n : Nat)
    (h1 : inp.objOutcome = StratOutcome.err ∨ inp.objOutcome = StratOutcome.tbl [])
    (h2 : inp.sgmlOutcome = StratOutcome.err ∨
      inp.sgmlOutcome = StratOutcome.tbl []) :
    (read_infotable_df inp ((read_infotable_df inp n).2)).1
        = (read_infotable_df inp n).1 ∧
      (read_infotable_df inp n).2 = n + 1 ∧
      (read_infotable_df inp ((read_infotable_df inp n).2)).2 = n + 2 := by
  have hs2 : ∀ m, chainStep2 inp m = chainTxt inp m := by
    intro m
    rcases h2 with h | h <;> simp [chainStep2, h]
  have hr : ∀ m, read_infotable_df inp m = chainTxt inp m := by
    intro m
    rcases h1 with h | h <;> simp [read_infotable_df, h, hs2]
  have hcnt : ∀ m, (chainTxt inp m).2 = m + 1 := by
    intro m
    by_cases hp : (inp.hasParser && !inp.parserIOErr) = true <;>
      simp [chainTxt, _fetch_submission_txt, hp]
  have hfst : ∀ m m', (chainTxt inp m).1 = (chainTxt inp m').1 := by
    intro m m'
    by_cases hp : (inp.hasParser && !inp.parserIOErr) = true <;>
      simp [chainTxt, _fetch_submission_txt, hp]
  refine ⟨?_, ?_, ?_⟩
  · rw [hr, hr]
    exact hfst _ _
  · rw [hr]
    exact hcnt n
  · rw [hr, hr, hcnt, hcnt]

/-- Claim C9, witness: a concrete text-path input run twice through the
theorem -- identical results, fetch counter 1 after the first run and 2
after the second. -/
theorem C9_no_cache_refetch_witness :
    (c9Inp.objOutcome = StratOutcome.err ∨
        c9Inp.objOutcome = StratOutcome.tbl []) ∧
      (c9Inp.sgmlOutcome = StratOutcome.err ∨
        c9Inp.sgmlOutcome = StratOutcome.tbl []) ∧
      (read_infotable_df c9Inp ((read_infotable_df c9Inp 0).2)).1
        = (read_infotable_df c9Inp 0).1 ∧
      (read_infotable_df c9Inp 0).2 = 1 ∧
      (read_infotable_df c9Inp ((read_infotable_df c9Inp 0).2)).2 = 2 := by
  have h := C9_no_cache_refetch c9Inp 0 (Or.inl rfl) (Or.inl rfl)
  exact ⟨Or.inl rfl, Or.inl rfl, h.1, h.2.1, h.2.2⟩

/-- Claim C9, counterexample to the claim as stated: over an unchanged
input whose payload was already retrieved once, the second extraction run
issues one more fetch (counter 2 after two runs), not zero additional
fetch calls. -/
theorem C9_second_run_fetches_again :
    (read_infotable_df c9Inp 0).2 = 1 ∧
      (read_infotable_df c9Inp ((read_infotable_df c9Inp 0).2)).2 = 2 ∧
      (2 : Nat) ≠ 1 :=
  ⟨by decide, by decide, by decide⟩

end PF13
